import Mathlib

/-!
Verification of the covreport coverage reporter.

The Go sources embedded here are:
* `reporter/internal/html.go` — the current HTML report generator
  (`GoProject.Report`, `TemplateData.AddDir`, `TemplateData.AddFile`,
  `NewTemplateListItemData`, `WriteHTMLEscapedLine`, `WriteHTMLEscapedCode`);
* `reporter/html.go` — the legacy generator (`GoDir.write`, `GoFile.write`,
  `openHeadingHTML`, `fileItemHTML`);
* `reporter/reporter.go` — CLI-facing helpers (`ParseCutlines`).

Go `int` values are modelled as `Int`, Go `float64` percentages and cutlines
as `ℚ` (the code only compares and divides them; no rounding behaviour is
claimed), Go strings as `List Char` (every character the code treats
specially is ASCII), and Go slices as `List`.  Fallible code returns
`Option`.  The struct types `GoProject`, `GoDir`, `GoFile`, `GoListItem` and
the method `Percent` are declared in `reporter/internal/report.go`, which is
not part of the sources at hand; their fields are reconstructed from their
uses in `html.go` and the `Percent` formula is modelled from the spec.
-/

/-- A parsed coverage record for one source file: `golang.org/x/tools`'s
profile block as used by both report generators (`StartLine`, `EndLine`,
`Count`). -/
structure Block where
  StartLine : Int
  EndLine : Int
  Count : Int
deriving DecidableEq, Repr

/-- Indexing `file.Profile[i]`.  Out-of-range access (which would panic in Go
and is unreachable in the embedded loops) returns a dummy block. -/
def blockAt (profile : List Block) (i : Nat) : Block :=
  profile.getD i ⟨0, 0, 0⟩

/-- Whether a block's `[StartLine, EndLine]` range contains a line number. -/
def Block.containsLine (b : Block) (n : Int) : Bool :=
  b.StartLine ≤ n && n ≤ b.EndLine

/-- One iteration of the per-line count-selection loop of
`TemplateData.AddFile` (`reporter/internal/html.go` lines 96–111): given the
cursor `idxProfile` and the 1-indexed `lineNumber`, it returns the new cursor
and the `count` pointer value (`none` models a nil `*int`).  The local
variable `profile` of the Go loop is `p1` below: after an advance it is
re-read only while the cursor is still in range. -/
def addFileLineStep (profile : List Block) (idxProfile : Nat) (lineNumber : Int) :
    Nat × Option Int :=
  if idxProfile < profile.length then
    let p0 := blockAt profile idxProfile
    let idx1 := if p0.EndLine < lineNumber then idxProfile + 1 else idxProfile
    let p1 := if idx1 < profile.length then blockAt profile idx1 else p0
    if p1.EndLine ≥ lineNumber ∧ p1.StartLine ≤ lineNumber then
      (idx1, some (blockAt profile idx1).Count)
    else
      (idx1, none)
  else
    (idxProfile, none)

/-- One iteration of the per-line count-selection loop of the legacy
`GoFile.write` (`reporter/html.go` lines 65–75).  Unlike `addFileLineStep`
it never consults `StartLine`. -/
def goFileLineStep (profile : List Block) (idxProfile : Nat) (lineNumber : Int) :
    Nat × Option Int :=
  if idxProfile < profile.length then
    let p0 := blockAt profile idxProfile
    if p0.EndLine < lineNumber then
      if idxProfile + 1 < profile.length then
        (idxProfile + 1, some (blockAt profile (idxProfile + 1)).Count)
      else
        (idxProfile + 1, none)
    else
      (idxProfile, some (blockAt profile idxProfile).Count)
  else
    (idxProfile, none)

/-- The counts selected by `TemplateData.AddFile` for `n` consecutive lines
starting at `lineNumber`, threading the block cursor through the loop. -/
def addFileCountsFrom (profile : List Block) (idxProfile : Nat) (lineNumber : Int) :
    Nat → List (Option Int)
  | 0 => []
  | n + 1 =>
    (addFileLineStep profile idxProfile lineNumber).2 ::
      addFileCountsFrom profile (addFileLineStep profile idxProfile lineNumber).1
        (lineNumber + 1) n

/-- The per-line counts selected by `TemplateData.AddFile` for a file with
`numLines` source lines: the loop starts at line 1 with cursor 0. -/
def addFileCounts (profile : List Block) (numLines : Nat) : List (Option Int) :=
  addFileCountsFrom profile 0 1 numLines

/-- The counts selected by the legacy `GoFile.write` for `n` consecutive
lines starting at `lineNumber`. -/
def goFileCountsFrom (profile : List Block) (idxProfile : Nat) (lineNumber : Int) :
    Nat → List (Option Int)
  | 0 => []
  | n + 1 =>
    (goFileLineStep profile idxProfile lineNumber).2 ::
      goFileCountsFrom profile (goFileLineStep profile idxProfile lineNumber).1
        (lineNumber + 1) n

/-- The per-line counts selected by the legacy `GoFile.write` for a file with
`numLines` source lines. -/
def goFileCounts (profile : List Block) (numLines : Nat) : List (Option Int) :=
  goFileCountsFrom profile 0 1 numLines

/-- The three ways `WriteHTMLEscapedLine` (and the matching `Fprintf` chain of
the legacy `GoFile.write`) renders a line, keyed by the selected count:
nil count, zero count, nonzero count. -/
inductive LineMark where
  | notInstrumented : LineMark
  | uncovered : LineMark
  | covered (count : Int) : LineMark
deriving DecidableEq, Repr

/-- The branch `WriteHTMLEscapedLine` takes for a given count pointer
(`reporter/internal/html.go` lines 151–168). -/
def lineMarkOfCount : Option Int → LineMark
  | none => .notInstrumented
  | some c => if c = 0 then .uncovered else .covered c

/-- The per-line marks produced by `TemplateData.AddFile` for a file with
`numLines` source lines. -/
def addFileMarks (profile : List Block) (numLines : Nat) : List LineMark :=
  (addFileCounts profile numLines).map lineMarkOfCount

/-- Specification-level count for one line: the count of the first block
whose range contains the line, if any. -/
def specLineCount (profile : List Block) (n : Int) : Option Int :=
  (profile.find? (fun b => b.containsLine n)).map Block.Count

/-- Specification-level count for one line of the legacy loop: the count of
the first block whose `EndLine` is at least the line number, if any. -/
def specOldLineCount (profile : List Block) (n : Int) : Option Int :=
  (profile.find? (fun b => n ≤ b.EndLine)).map Block.Count

/-- Well-formedness of a profile, as guaranteed by the upstream parser:
every block satisfies `1 ≤ StartLine ≤ EndLine`. -/
abbrev WellFormedBlocks (profile : List Block) : Prop :=
  ∀ i, i < profile.length →
    1 ≤ (blockAt profile i).StartLine ∧
      (blockAt profile i).StartLine ≤ (blockAt profile i).EndLine

/-- Sortedness and non-overlap of a profile: any earlier block ends strictly
before a later block starts. -/
abbrev SortedBlocks (profile : List Block) : Prop :=
  ∀ j, j < profile.length → ∀ i, i < j →
    (blockAt profile i).EndLine < (blockAt profile j).StartLine

/-- Loop invariant of both per-line walks at the start of the iteration for
`line`: every block strictly before the cursor ends before `line - 1`, and
the cursor block (if any) ends no earlier than `line - 1`. -/
def WalkInv (profile : List Block) (idx : Nat) (line : Int) : Prop :=
  idx ≤ profile.length ∧
    (∀ i, i < idx → (blockAt profile i).EndLine < line - 1) ∧
    (idx < profile.length → line - 1 ≤ (blockAt profile idx).EndLine)

/-- The cursor movement shared by both loops. -/
def advanceIdx (profile : List Block) (idx : Nat) (line : Int) : Nat :=
  if idx < profile.length ∧ (blockAt profile idx).EndLine < line then idx + 1 else idx

/-- Shape of every identifier tail produced below a node by the legacy id
scheme: either the node itself (empty tail) or a hyphen-led extension. -/
def HyphenStart (t : List Char) : Prop :=
  t = [] ∨ ∃ u, t = '-' :: u

/-- Go's `strings.ReplaceAll` specialised to a single-character pattern, as
used by the legacy `GoFile.write` (all four patterns there are single
characters). -/
def replaceAll (pat : Char) (rep : List Char) : List Char → List Char
  | [] => []
  | c :: rest => (if c = pat then rep else [c]) ++ replaceAll pat rep rest

/-- The escaping chain of the legacy `GoFile.write` (`reporter/html.go`
lines 77–80): replace `>` with `&gt;`, then `<` with `&lt;`, then `&` with
`&amp;`, then a tab with four spaces, in that order. -/
def goFileEscapeLine (code : List Char) : List Char :=
  replaceAll '\t' [' ', ' ', ' ', ' ']
    (replaceAll '&' ['&', 'a', 'm', 'p', ';']
      (replaceAll '<' ['&', 'l', 't', ';']
        (replaceAll '>' ['&', 'g', 't', ';'] code)))

/-- The byte-wise escaping loop of `WriteHTMLEscapedCode`
(`reporter/internal/html.go` lines 171–188). -/
def WriteHTMLEscapedCode : List Char → List Char
  | [] => []
  | b :: rest =>
    (if b = '>' then ['&', 'g', 't', ';']
      else if b = '<' then ['&', 'l', 't', ';']
      else if b = '&' then ['&', 'a', 'm', 'p', ';']
      else if b = '\t' then [' ', ' ', ' ', ' ']
      else [b]) ++ WriteHTMLEscapedCode rest

/-- Modelled from the spec: the `Percent` method of `GoListItem` (declared in
`reporter/internal/report.go`, which is not among the sources at hand).  The
spec defines it as `statementCount == 0 ? 0 : 100 * statementsCovered /
statementCount`. -/
def goPercent (stmtCoveredCount stmtCount : Int) : ℚ :=
  if stmtCount = 0 then 0 else 100 * (stmtCoveredCount : ℚ) / (stmtCount : ℚ)

/-- The percentage computed by the legacy `openHeadingHTML`
(`reporter/html.go` lines 96–102). -/
def openHeadingPercent (numStmtCovered numStmt : Int) : ℚ :=
  if numStmt = 0 then 0 else (numStmtCovered : ℚ) / (numStmt : ℚ) * 100

/-- The percentage computed by the legacy `fileItemHTML`
(`reporter/html.go` lines 121–124). -/
def fileItemPercent (numStmtCovered numStmt : Int) : ℚ :=
  if numStmt = 0 then 0 else (numStmtCovered : ℚ) / (numStmt : ℚ) * 100

/-- The CSS class chosen by the legacy `fileItemHTML` with its hard-wired
cutlines (`reporter/html.go` lines 121–132): empty for zero statements,
otherwise safe above 70, danger below 40, warning in between. -/
def fileItemClass (numStmtCovered numStmt : Int) : String :=
  if numStmt = 0 then ""
  else
    let percent := (numStmtCovered : ℚ) / (numStmt : ℚ) * 100
    if percent > 70 then "safe" else if percent < 40 then "danger" else "warning"

/-- The configured cutlines (`config.Cutlines`): `Safe` and `Warning` are
`float64` percentages, modelled as rationals. -/
structure Cutlines where
  Safe : ℚ
  Warning : ℚ
deriving DecidableEq

/-- The list-item part shared by directories and files (embedded struct
`GoListItem`, declared in the missing `reporter/internal/report.go`; its
fields are reconstructed from their uses in `html.go`). -/
structure GoListItem where
  ID : List Char
  Title : List Char
  StmtCount : Int
  StmtCoveredCount : Int
deriving DecidableEq

/-- Modelled from the spec: coverage percentage of a list item. -/
def GoListItem.Percent (item : GoListItem) : ℚ :=
  goPercent item.StmtCoveredCount item.StmtCount

/-- The data for a single entry of a directory listing
(`TemplateListItemData`).  `Progress` and `Percent` hold the numeric value
that the Go code formats with `%.1f`; formatting is not modelled. -/
structure TemplateListItemData where
  ClassName : String
  ID : List Char
  Title : List Char
  Progress : ℚ
  Percent : ℚ
  NumStmtCovered : Int
  NumStmt : Int
deriving DecidableEq

/-- The classifier `NewTemplateListItemData` (`reporter/internal/html.go`
lines 125–148): the class name stays empty unless the item has statements,
and is otherwise picked by comparing the percentage with the cutlines. -/
def NewTemplateListItemData (item : GoListItem) (cutlines : Cutlines) :
    TemplateListItemData :=
  let percent := item.Percent
  let className : String :=
    if item.StmtCount > 0 then
      if percent < cutlines.Warning then "danger"
      else if percent < cutlines.Safe then "warning"
      else "safe"
    else ""
  { ClassName := className, ID := item.ID, Title := item.Title,
    Progress := percent, Percent := percent,
    NumStmtCovered := item.StmtCoveredCount, NumStmt := item.StmtCount }

/-- Health rank of a class name: Danger below Warning below Safe. -/
def classRank (className : String) : Nat :=
  if className = "danger" then 0 else if className = "warning" then 1 else 2

/-- Go's `strings.Split` specialised to a single-character separator, as
used by `ParseCutlines` (and for source lines).  Splitting the empty string
yields one empty fragment, as in Go. -/
def splitOnChar (sep : Char) : List Char → List (List Char)
  | [] => [[]]
  | c :: rest =>
    match splitOnChar sep rest with
    | [] => [[]]
    | frag :: frags => if c = sep then [] :: frag :: frags else (c :: frag) :: frags

/-- Result of `ParseCutlines`, generic in the number type produced by the
external float parser. -/
structure ParsedCutlines (α : Type) where
  Safe : α
  Warning : α
deriving DecidableEq

/-- The cutline argument parser `ParseCutlines` (`reporter/reporter.go`
lines 59–74): split on commas, parse the first fragment as the safe cutline
and the last fragment as the warning cutline, failing if either parse
fails.  `strconv.ParseFloat` is an external collaborator and is passed in
as `parseFloat`; `none` models its error return. -/
def ParseCutlines {α : Type} (parseFloat : List Char → Option α)
    (cutlines : List Char) : Option (ParsedCutlines α) :=
  let frags := splitOnChar ',' cutlines
  match parseFloat (frags.headD []) with
  | none => none
  | some safe =>
    match parseFloat (frags.getLastD []) with
    | none => none
    | some warning => some { Safe := safe, Warning := warning }

/-- A source file node.  `Basename` is `filepath.Base` of the stored file
name (`filepath.Base` is an external collaborator), `Src` the content the
source reader returns for it, and the remaining fields mirror the Go
`GoFile` struct of the missing `reporter/internal/report.go` as used by
both generators. -/
structure GoFile where
  ID : List Char
  Title : List Char
  Basename : List Char
  StmtCount : Int
  StmtCoveredCount : Int
  Profile : List Block
  Src : List Char
deriving DecidableEq

/-- A directory node of the coverage tree, mirroring the Go `GoDir` struct
(fields reconstructed from their uses in both `html.go` files). -/
inductive GoDir where
  | mk (ID Title RelPkgPath Basename : List Char) (StmtCount StmtCoveredCount : Int)
      (SubDirs : List GoDir) (Files : List GoFile)

def GoDir.ID : GoDir → List Char
  | .mk i _ _ _ _ _ _ _ => i

def GoDir.Title : GoDir → List Char
  | .mk _ t _ _ _ _ _ _ => t

def GoDir.RelPkgPath : GoDir → List Char
  | .mk _ _ r _ _ _ _ _ => r

def GoDir.Basename : GoDir → List Char
  | .mk _ _ _ b _ _ _ _ => b

def GoDir.StmtCount : GoDir → Int
  | .mk _ _ _ _ c _ _ _ => c

def GoDir.StmtCoveredCount : GoDir → Int
  | .mk _ _ _ _ _ c _ _ => c

def GoDir.SubDirs : GoDir → List GoDir
  | .mk _ _ _ _ _ _ s _ => s

def GoDir.Files : GoDir → List GoFile
  | .mk _ _ _ _ _ _ _ f => f

/-- The embedded `GoListItem` of a directory. -/
def GoDir.listItem (d : GoDir) : GoListItem :=
  { ID := d.ID, Title := d.Title, StmtCount := d.StmtCount,
    StmtCoveredCount := d.StmtCoveredCount }

/-- The embedded `GoListItem` of a file. -/
def GoFile.listItem (f : GoFile) : GoListItem :=
  { ID := f.ID, Title := f.Title, StmtCount := f.StmtCount,
    StmtCoveredCount := f.StmtCoveredCount }

/-- The display-root loop of `GoProject.Report` (`reporter/internal/html.go`
lines 21–23): descend while the current directory has exactly one
subdirectory and no files. -/
def GoDir.collapse : GoDir → GoDir
  | .mk _ _ _ _ _ _ [d] [] => GoDir.collapse d
  | d => d

/-- Stated from the spec's words, for comparison with `GoDir.collapse`: the
collapsing rule of spec §4.1 descends while the current directory has
exactly one child and that child is itself a directory *with no files*. -/
def specCollapse (d : GoDir) : GoDir :=
  match d with
  | .mk _ _ _ _ _ _ [child] [] =>
    if child.Files = [] then specCollapse child else d
  | _ => d

/-- The node `e` is reachable from `d` by descending through directories
that have exactly one subdirectory and no files. -/
inductive DescendsTo : GoDir → GoDir → Prop where
  | refl (d : GoDir) : DescendsTo d d
  | step (i t r b : List Char) (sc scc : Int) (child e : GoDir) :
      DescendsTo child e →
      DescendsTo (.mk i t r b sc scc [child] []) e

/-- A parsed project: root path, cutlines, and the built tree returned by
`gp.Root()` (tree construction lives in the missing `report.go`). -/
structure GoProject where
  RootPath : List Char
  Cutlines : Cutlines
  RootDir : GoDir

/-- The `initialDir` computed at the top of `GoProject.Report`: the
collapsing loop runs only when the configured root path is `"."`. -/
def GoProject.reportInitialDir (gp : GoProject) : GoDir :=
  if gp.RootPath = ['.'] then gp.RootDir.collapse else gp.RootDir

/-- A breadcrumb link (`TemplateLinkData`). -/
structure TemplateLinkData where
  ID : List Char
  Title : List Char
deriving DecidableEq

/-- One view of the rendered report (`TemplateViewData`).  `Lines` carries,
per source line, the branch `WriteHTMLEscapedLine` takes and the escaped
code it writes; `Percent` is the numeric value formatted with `%.1f%%`. -/
structure TemplateViewData where
  ID : List Char
  Percent : ℚ
  NumStmtCovered : Int
  NumStmt : Int
  Links : List TemplateLinkData
  Items : List TemplateListItemData
  Lines : List (LineMark × List Char)
  IsDir : Bool

/-- The accumulated template data (`TemplateData`). -/
structure TemplateData where
  Views : List TemplateViewData
  InitialID : List Char
  Cutlines : Cutlines

/-- The view record built by `TemplateData.AddFile` for one file
(`reporter/internal/html.go` lines 75–122): its `Lines` pair each line's
`WriteHTMLEscapedLine` branch with the escaped line content. -/
def addFileView (links : List TemplateLinkData) (file : GoFile) : TemplateViewData :=
  let lines := splitOnChar '\n' file.Src
  { ID := file.ID,
    Links := links ++ [{ ID := file.ID, Title := file.Title }],
    NumStmtCovered := file.StmtCoveredCount,
    NumStmt := file.StmtCount,
    Percent := goPercent file.StmtCoveredCount file.StmtCount,
    Items := [],
    Lines := List.zip ((addFileCounts file.Profile lines.length).map lineMarkOfCount)
      (lines.map WriteHTMLEscapedCode),
    IsDir := false }

/-- `TemplateData.AddFile`: append the file's view to the accumulated
views. -/
def TemplateData.AddFile (td : TemplateData) (file : GoFile)
    (links : List TemplateLinkData) : TemplateData :=
  { td with Views := td.Views ++ [addFileView links file] }

/-- The view record built by `TemplateData.AddDir` for one directory
(`reporter/internal/html.go` lines 35–57).  In Go the `Items` slice is
filled in by mutation after the view is appended; the completed record is
built here up front, which yields the same final data because
`NewTemplateListItemData` reads only the child and the cutlines. -/
def dirViewRecord (initialID : List Char) (cutlines : Cutlines)
    (links : List TemplateLinkData) (dir : GoDir) : TemplateViewData :=
  let title :=
    if initialID = dir.ID then
      (if dir.RelPkgPath = ['.'] then ['r', 'o', 'o', 't'] else dir.RelPkgPath)
    else dir.Title
  { ID := dir.ID,
    Links := links ++ [{ ID := dir.ID, Title := title }],
    NumStmtCovered := dir.StmtCoveredCount,
    NumStmt := dir.StmtCount,
    IsDir := true,
    Percent := goPercent dir.StmtCoveredCount dir.StmtCount,
    Items := dir.SubDirs.map (fun s => NewTemplateListItemData s.listItem cutlines) ++
      dir.Files.map (fun f => NewTemplateListItemData f.listItem cutlines),
    Lines := [] }

/-- The breadcrumb chain passed to the children of a directory. -/
def dirLinks (initialID : List Char) (links : List TemplateLinkData)
    (dir : GoDir) : List TemplateLinkData :=
  let title :=
    if initialID = dir.ID then
      (if dir.RelPkgPath = ['.'] then ['r', 'o', 'o', 't'] else dir.RelPkgPath)
    else dir.Title
  links ++ [{ ID := dir.ID, Title := title }]

/-- The `for _, file := range dir.Files` loop of `TemplateData.AddDir`. -/
def TemplateData.AddFileList (td : TemplateData) (files : List GoFile)
    (links : List TemplateLinkData) : TemplateData :=
  match files with
  | [] => td
  | f :: fs => TemplateData.AddFileList (td.AddFile f links) fs links

mutual

/-- `TemplateData.AddDir` (`reporter/internal/html.go` lines 35–71): append
the directory's view, then recursively add every subdirectory, then add
every file, threading the accumulated views. -/
def TemplateData.AddDir (td : TemplateData) (dir : GoDir)
    (links : List TemplateLinkData) : TemplateData :=
  match dir with
  | .mk i t r b sc scc subDirs files =>
    let self : GoDir := .mk i t r b sc scc subDirs files
    let td1 : TemplateData :=
      { td with Views := td.Views ++ [dirViewRecord td.InitialID td.Cutlines links self] }
    let td2 := TemplateData.AddDirList td1 subDirs (dirLinks td.InitialID links self)
    TemplateData.AddFileList td2 files (dirLinks td.InitialID links self)

/-- The `for _, subDir := range dir.SubDirs` loop of `TemplateData.AddDir`. -/
def TemplateData.AddDirList (td : TemplateData) (dirs : List GoDir)
    (links : List TemplateLinkData) : TemplateData :=
  match dirs with
  | [] => td
  | d :: ds => TemplateData.AddDirList (TemplateData.AddDir td d links) ds links

end

/-- `GoProject.Report` (`reporter/internal/html.go` lines 16–32) up to the
out-of-scope template execution: compute the display root, then project the
tree into the ordered view list. -/
def GoProject.Report (gp : GoProject) : TemplateData :=
  let initialDir := gp.reportInitialDir
  TemplateData.AddDir
    { Views := [], InitialID := initialDir.ID, Cutlines := gp.Cutlines } initialDir []

mutual

/-- Pre-order enumeration of the identifiers of all nodes reachable from a
directory: the directory itself, then the subdirectory subtrees in order,
then the files in order. -/
def GoDir.nodeIds : GoDir → List (List Char)
  | .mk i _ _ _ _ _ subDirs files =>
    i :: (GoDir.nodeIdsList subDirs ++ files.map GoFile.ID)

def GoDir.nodeIdsList : List GoDir → List (List Char)
  | [] => []
  | d :: ds => GoDir.nodeIds d ++ GoDir.nodeIdsList ds

end

mutual

/-- Number of nodes reachable from a directory (itself, its subdirectory
subtrees and its files). -/
def GoDir.countNodes : GoDir → Nat
  | .mk _ _ _ _ _ _ subDirs files => 1 + GoDir.countNodesList subDirs + files.length

def GoDir.countNodesList : List GoDir → Nat
  | [] => 0
  | d :: ds => GoDir.countNodes d + GoDir.countNodesList ds

end

mutual

/-- The views emitted for one directory subtree by `TemplateData.AddDir`,
stated without the accumulator: the directory's view first, then the
subdirectory subtrees' views, then the file views. -/
def dirViews (initialID : List Char) (cutlines : Cutlines)
    (links : List TemplateLinkData) : GoDir → List TemplateViewData
  | .mk i t r b sc scc subDirs files =>
    let self : GoDir := .mk i t r b sc scc subDirs files
    dirViewRecord initialID cutlines links self ::
      (dirViewsList initialID cutlines (dirLinks initialID links self) subDirs ++
        files.map (addFileView (dirLinks initialID links self)))

def dirViewsList (initialID : List Char) (cutlines : Cutlines)
    (links : List TemplateLinkData) : List GoDir → List TemplateViewData
  | [] => []
  | d :: ds =>
    dirViews initialID cutlines links d ++ dirViewsList initialID cutlines links ds

end

mutual

/-- The identifiers assigned by the legacy `GoDir.write`
(`reporter/html.go` lines 27–47) to every node below a directory whose own
identifier is `id`: a child's identifier is the parent identifier, a
hyphen, and the child's base name. -/
def GoDir.writeIds : GoDir → List Char → List (List Char)
  | .mk _ _ _ _ _ _ subDirs files, id =>
    id :: (GoDir.writeIdsList subDirs id ++ files.map (fun f => id ++ '-' :: f.Basename))

def GoDir.writeIdsList : List GoDir → List Char → List (List Char)
  | [], _ => []
  | d :: ds, id =>
    GoDir.writeIds d (id ++ '-' :: d.Basename) ++ GoDir.writeIdsList ds id

end

mutual

/-- The identifier tails below a directory: `writeIds d id` is `id`
prepended to every element of `idTails d`. -/
def GoDir.idTails : GoDir → List (List Char)
  | .mk _ _ _ _ _ _ subDirs files =>
    [] :: (GoDir.idTailsList subDirs ++ files.map (fun f => '-' :: f.Basename))

def GoDir.idTailsList : List GoDir → List (List Char)
  | [] => []
  | d :: ds =>
    (GoDir.idTails d).map (fun t => ('-' :: d.Basename) ++ t) ++ GoDir.idTailsList ds

end

mutual

/-- Naming discipline under which the legacy identifier scheme is
injective: in every directory, the base names of the subdirectories and
files together are pairwise distinct, nonempty, and hyphen-free. -/
def GoDir.goodNames : GoDir → Bool
  | .mk _ _ _ _ _ _ subDirs files =>
    decide ((subDirs.map GoDir.Basename ++ files.map GoFile.Basename).Nodup) &&
      decide (∀ b ∈ subDirs.map GoDir.Basename ++ files.map GoFile.Basename,
        b ≠ [] ∧ '-' ∉ b) &&
      GoDir.goodNamesList subDirs

def GoDir.goodNamesList : List GoDir → Bool
  | [] => true
  | d :: ds => GoDir.goodNames d && GoDir.goodNamesList ds

end

/-- A toy fragment parser standing in for `strconv.ParseFloat` on concrete
inputs: it accepts exactly the fragments `3` and `7`. -/
def parseDigit (l : List Char) : Option Nat :=
  if l = ['3'] then some 3 else if l = ['7'] then some 7 else none

example : addFileCounts [⟨2, 3, 0⟩, ⟨4, 4, 7⟩] 5 = [none, some 0, some 0, some 7, none] := by
  decide

example : addFileMarks [⟨2, 3, 0⟩, ⟨4, 4, 7⟩] 5 =
    [.notInstrumented, .uncovered, .uncovered, .covered 7, .notInstrumented] := by
  decide

example : goFileCounts [⟨2, 3, 0⟩, ⟨4, 4, 7⟩] 5 = [some 0, some 0, some 0, some 7, none] := by
  decide

/-! ### The per-line merge walks -/

theorem containsLine_iff (b : Block) (n : Int) :
    b.containsLine n = true ↔ (b.StartLine ≤ n ∧ n ≤ b.EndLine) := by
  simp [Block.containsLine]

theorem containsLine_false (b : Block) (n : Int)
    (h : n < b.StartLine ∨ b.EndLine < n) : b.containsLine n = false := by
  rw [Bool.eq_false_iff, Ne, containsLine_iff]
  omega

theorem blockAt_cons_succ (b : Block) (l : List Block) (i : Nat) :
    blockAt (b :: l) (i + 1) = blockAt l i := List.getD_cons_succ

theorem blockAt_cons_zero (b : Block) (l : List Block) :
    blockAt (b :: l) 0 = b := List.getD_cons_zero

theorem find?_none_idx (p : Block → Bool) (l : List Block)
    (h : ∀ i, i < l.length → p (blockAt l i) = false) : l.find? p = none := by
  rw [List.find?_eq_none]
  intro x hx
  obtain ⟨i, hi, rfl⟩ := List.mem_iff_getElem.mp hx
  have hp := h i hi
  rw [blockAt, List.getD_eq_getElem _ _ hi] at hp
  simp [hp]

theorem find?_some_idx (p : Block → Bool) (l : List Block) (k : Nat) (hk : k < l.length)
    (hpre : ∀ i, i < k → p (blockAt l i) = false) (hp : p (blockAt l k) = true) :
    l.find? p = some (blockAt l k) := by
  induction l generalizing k with
  | nil => simp at hk
  | cons b t ih =>
    cases k with
    | zero =>
      rw [blockAt_cons_zero] at hp ⊢
      simp [List.find?_cons, hp]
    | succ k =>
      have h0 : p b = false := by
        have := hpre 0 (Nat.succ_pos k)
        rwa [blockAt_cons_zero] at this
      rw [blockAt_cons_succ] at hp ⊢
      rw [List.find?_cons, h0]
      exact ih k (by simpa using hk)
        (fun i hi => by
          have := hpre (i + 1) (Nat.succ_lt_succ hi)
          rwa [blockAt_cons_succ] at this) hp

theorem addFileLineStep_fst (profile : List Block) (idx : Nat) (line : Int) :
    (addFileLineStep profile idx line).1 = advanceIdx profile idx line := by
  simp only [addFileLineStep, advanceIdx, apply_ite Prod.fst, ite_self]
  split_ifs <;> omega

theorem goFileLineStep_fst (profile : List Block) (idx : Nat) (line : Int) :
    (goFileLineStep profile idx line).1 = advanceIdx profile idx line := by
  simp only [goFileLineStep, advanceIdx, apply_ite Prod.fst, ite_self]
  split_ifs <;> omega

theorem walkInv_init (profile : List Block) (hwf : WellFormedBlocks profile) :
    WalkInv profile 0 1 := by
  refine ⟨Nat.zero_le _, fun i hi => absurd hi (Nat.not_lt_zero i), fun h => ?_⟩
  have := hwf 0 h
  omega

theorem advanceIdx_inv (profile : List Block) (idx : Nat) (line : Int)
    (hwf : WellFormedBlocks profile) (hs : SortedBlocks profile)
    (hinv : WalkInv profile idx line) :
    WalkInv profile (advanceIdx profile idx line) (line + 1) := by
  obtain ⟨h1, h2, h3⟩ := hinv
  rw [advanceIdx]
  split_ifs with h
  · obtain ⟨hlt, he⟩ := h
    refine ⟨by omega, fun i hi => ?_, fun hlt2 => ?_⟩
    · rcases Nat.lt_succ_iff_lt_or_eq.mp hi with hi' | rfl
      · have := h2 i hi'; omega
      · omega
    · have hst := hs (idx + 1) hlt2 idx (Nat.lt_succ_self idx)
      have hwf2 := hwf (idx + 1) hlt2
      have := h3 hlt
      omega
  · rw [not_and_or] at h
    refine ⟨h1, fun i hi => ?_, fun hlt => ?_⟩
    · have := h2 i hi; omega
    · rcases h with h | h
      · exact absurd hlt h
      · push_neg at h
        have := h3 hlt
        omega

theorem addFileLineStep_snd (profile : List Block) (idx : Nat) (line : Int)
    (hwf : WellFormedBlocks profile) (hs : SortedBlocks profile)
    (hinv : WalkInv profile idx line) :
    (addFileLineStep profile idx line).2 = specLineCount profile line := by
  obtain ⟨hle, hprev, hcur⟩ := hinv
  by_cases h1 : idx < profile.length
  · by_cases h2 : (blockAt profile idx).EndLine < line
    · have hidxe : (blockAt profile idx).EndLine = line - 1 := by
        have := hcur h1; omega
      by_cases h3 : idx + 1 < profile.length
      · have hs1 := hs (idx + 1) h3 idx (Nat.lt_succ_self idx)
        have hwf1 := hwf (idx + 1) h3
        by_cases h4 : line ≤ (blockAt profile (idx + 1)).EndLine ∧
            (blockAt profile (idx + 1)).StartLine ≤ line
        · have hfind : profile.find? (fun b => b.containsLine line) =
              some (blockAt profile (idx + 1)) := by
            refine find?_some_idx _ _ (idx + 1) h3 (fun i hi => ?_)
              ((containsLine_iff _ _).mpr ⟨h4.2, h4.1⟩)
            rcases Nat.lt_succ_iff_lt_or_eq.mp hi with hi' | rfl
            · exact containsLine_false _ _ (Or.inr (by have := hprev i hi'; omega))
            · exact containsLine_false _ _ (Or.inr (by omega))
          rw [specLineCount, hfind]
          simp [addFileLineStep, h1, h2, h3, ge_iff_le, h4]
        · have hfind : profile.find? (fun b => b.containsLine line) = none := by
            refine find?_none_idx _ _ (fun i hi => ?_)
            rcases Nat.lt_trichotomy i (idx + 1) with hlt | heq | hgt
            · rcases Nat.lt_succ_iff_lt_or_eq.mp hlt with hi' | rfl
              · exact containsLine_false _ _ (Or.inr (by have := hprev i hi'; omega))
              · exact containsLine_false _ _ (Or.inr (by omega))
            · subst heq
              rw [Bool.eq_false_iff, Ne, containsLine_iff]
              intro hc
              exact h4 ⟨hc.2, hc.1⟩
            · have hsi := hs i hi (idx + 1) hgt
              exact containsLine_false _ _ (Or.inl (by omega))
          rw [specLineCount, hfind]
          simp [addFileLineStep, h1, h2, h3, ge_iff_le, h4]
      · have hfind : profile.find? (fun b => b.containsLine line) = none := by
          refine find?_none_idx _ _ (fun i hi => ?_)
          rcases Nat.lt_or_ge i idx with hi' | hge
          · exact containsLine_false _ _ (Or.inr (by have := hprev i hi'; omega))
          · have : i = idx := by omega
            subst this
            exact containsLine_false _ _ (Or.inr (by omega))
        have hc : ¬ (line ≤ (blockAt profile idx).EndLine ∧
            (blockAt profile idx).StartLine ≤ line) := by omega
        rw [specLineCount, hfind]
        simp [addFileLineStep, h1, h2, h3, ge_iff_le, hc]
    · by_cases h4 : (blockAt profile idx).StartLine ≤ line
      · have hfind : profile.find? (fun b => b.containsLine line) =
            some (blockAt profile idx) := by
          refine find?_some_idx _ _ idx h1 (fun i hi' => ?_)
            ((containsLine_iff _ _).mpr ⟨h4, by omega⟩)
          exact containsLine_false _ _ (Or.inr (by have := hprev i hi'; omega))
        have hc : line ≤ (blockAt profile idx).EndLine ∧
            (blockAt profile idx).StartLine ≤ line := ⟨by omega, h4⟩
        rw [specLineCount, hfind]
        simp [addFileLineStep, h1, h2, ge_iff_le, hc]
      · have hfind : profile.find? (fun b => b.containsLine line) = none := by
          refine find?_none_idx _ _ (fun i hi => ?_)
          rcases Nat.lt_trichotomy i idx with hlt | heq | hgt
          · exact containsLine_false _ _ (Or.inr (by have := hprev i hlt; omega))
          · subst heq
            exact containsLine_false _ _ (Or.inl (by omega))
          · have hsi := hs i hi idx hgt
            exact containsLine_false _ _ (Or.inl (by omega))
        have hc : ¬ (line ≤ (blockAt profile idx).EndLine ∧
            (blockAt profile idx).StartLine ≤ line) := by omega
        rw [specLineCount, hfind]
        simp [addFileLineStep, h1, h2, ge_iff_le, hc]
  · have hfind : profile.find? (fun b => b.containsLine line) = none := by
      refine find?_none_idx _ _ (fun i hi => ?_)
      exact containsLine_false _ _ (Or.inr (by have := hprev i (by omega); omega))
    rw [specLineCount, hfind]
    simp [addFileLineStep, h1]

theorem goFileLineStep_snd (profile : List Block) (idx : Nat) (line : Int)
    (hwf : WellFormedBlocks profile) (hs : SortedBlocks profile)
    (hinv : WalkInv profile idx line) :
    (goFileLineStep profile idx line).2 = specOldLineCount profile line := by
  obtain ⟨hle, hprev, hcur⟩ := hinv
  by_cases h1 : idx < profile.length
  · by_cases h2 : (blockAt profile idx).EndLine < line
    · have hidxe : (blockAt profile idx).EndLine = line - 1 := by
        have := hcur h1; omega
      by_cases h3 : idx + 1 < profile.length
      · have hs1 := hs (idx + 1) h3 idx (Nat.lt_succ_self idx)
        have hwf1 := hwf (idx + 1) h3
        have hfind : profile.find? (fun b => decide (line ≤ b.EndLine)) =
            some (blockAt profile (idx + 1)) := by
          refine find?_some_idx _ _ (idx + 1) h3 (fun i hi => ?_) (by
            simp only [decide_eq_true_eq]
            omega)
          rcases Nat.lt_succ_iff_lt_or_eq.mp hi with hi' | rfl
          · simp only [decide_eq_false_iff_not]
            have := hprev i hi'; omega
          · simp only [decide_eq_false_iff_not]
            omega
        rw [specOldLineCount, hfind]
        simp [goFileLineStep, h1, h2, h3]
      · have hfind : profile.find? (fun b => decide (line ≤ b.EndLine)) = none := by
          refine find?_none_idx _ _ (fun i hi => ?_)
          simp only [decide_eq_false_iff_not]
          rcases Nat.lt_or_ge i idx with hi' | hge
          · have := hprev i hi'; omega
          · have : i = idx := by omega
            subst this
            omega
        rw [specOldLineCount, hfind]
        simp [goFileLineStep, h1, h2, h3]
    · have hfind : profile.find? (fun b => decide (line ≤ b.EndLine)) =
          some (blockAt profile idx) := by
        refine find?_some_idx _ _ idx h1 (fun i hi' => ?_) (by
          simp only [decide_eq_true_eq]
          omega)
        simp only [decide_eq_false_iff_not]
        have := hprev i hi'; omega
      rw [specOldLineCount, hfind]
      simp [goFileLineStep, h1, h2]
  · have hfind : profile.find? (fun b => decide (line ≤ b.EndLine)) = none := by
      refine find?_none_idx _ _ (fun i hi => ?_)
      simp only [decide_eq_false_iff_not]
      have := hprev i (by omega); omega
    rw [specOldLineCount, hfind]
    simp [goFileLineStep, h1]

theorem addFileCountsFrom_spec (profile : List Block)
    (hwf : WellFormedBlocks profile) (hs : SortedBlocks profile) (n : Nat) :
    ∀ (idx : Nat) (line : Int), WalkInv profile idx line →
      addFileCountsFrom profile idx line n =
        (List.range n).map (fun j : Nat => specLineCount profile (line + (j : Int))) := by
  induction n with
  | zero => intro idx line _; simp [addFileCountsFrom]
  | succ n ih =>
    intro idx line hinv
    rw [addFileCountsFrom, addFileLineStep_snd profile idx line hwf hs hinv,
      addFileLineStep_fst, ih _ _ (advanceIdx_inv profile idx line hwf hs hinv),
      List.range_succ_eq_map]
    simp only [List.map_cons, List.map_map]
    congr 1
    · simp
    · apply List.map_congr_left
      intro a _
      simp only [Function.comp]
      congr 1
      push_cast
      ring

theorem goFileCountsFrom_spec (profile : List Block)
    (hwf : WellFormedBlocks profile) (hs : SortedBlocks profile) (n : Nat) :
    ∀ (idx : Nat) (line : Int), WalkInv profile idx line →
      goFileCountsFrom profile idx line n =
        (List.range n).map (fun j : Nat => specOldLineCount profile (line + (j : Int))) := by
  induction n with
  | zero => intro idx line _; simp [goFileCountsFrom]
  | succ n ih =>
    intro idx line hinv
    rw [goFileCountsFrom, goFileLineStep_snd profile idx line hwf hs hinv,
      goFileLineStep_fst, ih _ _ (advanceIdx_inv profile idx line hwf hs hinv),
      List.range_succ_eq_map]
    simp only [List.map_cons, List.map_map]
    congr 1
    · simp
    · apply List.map_congr_left
      intro a _
      simp only [Function.comp]
      congr 1
      push_cast
      ring

theorem addFileCounts_getD (profile : List Block) (numLines : Nat)
    (hwf : WellFormedBlocks profile) (hs : SortedBlocks profile)
    (i : Nat) (hi : i < numLines) :
    (addFileCounts profile numLines).getD i none =
      specLineCount profile ((i : Int) + 1) := by
  rw [addFileCounts,
    addFileCountsFrom_spec profile hwf hs numLines 0 1 (walkInv_init profile hwf)]
  have hlen : i < ((List.range numLines).map
      (fun j : Nat => specLineCount profile (1 + (j : Int)))).length := by
    simpa using hi
  rw [List.getD_eq_getElem _ _ hlen, List.getElem_map, List.getElem_range]
  congr 1
  omega

theorem goFileCounts_getD (profile : List Block) (numLines : Nat)
    (hwf : WellFormedBlocks profile) (hs : SortedBlocks profile)
    (i : Nat) (hi : i < numLines) :
    (goFileCounts profile numLines).getD i none =
      specOldLineCount profile ((i : Int) + 1) := by
  rw [goFileCounts,
    goFileCountsFrom_spec profile hwf hs numLines 0 1 (walkInv_init profile hwf)]
  have hlen : i < ((List.range numLines).map
      (fun j : Nat => specOldLineCount profile (1 + (j : Int)))).length := by
    simpa using hi
  rw [List.getD_eq_getElem _ _ hlen, List.getElem_map, List.getElem_range]
  congr 1
  omega

theorem specLineCount_of_contains (profile : List Block) (hs : SortedBlocks profile)
    (b : Block) (hb : b ∈ profile) (n : Int) (hc : b.containsLine n = true) :
    specLineCount profile n = some b.Count := by
  obtain ⟨k, hk, rfl⟩ := List.mem_iff_getElem.mp hb
  have hbk : blockAt profile k = profile[k] := by
    rw [blockAt, List.getD_eq_getElem _ _ hk]
  rw [← hbk] at hc ⊢
  rw [containsLine_iff] at hc
  have hfind : profile.find? (fun x => x.containsLine n) = some (blockAt profile k) := by
    refine find?_some_idx _ _ k hk (fun i hi => ?_) ((containsLine_iff _ _).mpr hc)
    have := hs k hk i hi
    exact containsLine_false _ _ (Or.inr (by omega))
  rw [specLineCount, hfind]
  rfl

theorem specOldLineCount_of_contains (profile : List Block) (hs : SortedBlocks profile)
    (b : Block) (hb : b ∈ profile) (n : Int) (hc : b.containsLine n = true) :
    specOldLineCount profile n = some b.Count := by
  obtain ⟨k, hk, rfl⟩ := List.mem_iff_getElem.mp hb
  have hbk : blockAt profile k = profile[k] := by
    rw [blockAt, List.getD_eq_getElem _ _ hk]
  rw [← hbk] at hc ⊢
  rw [containsLine_iff] at hc
  have hfind : profile.find? (fun x => decide (n ≤ x.EndLine)) =
      some (blockAt profile k) := by
    refine find?_some_idx _ _ k hk (fun i hi => ?_) (by
      simp only [decide_eq_true_eq]
      omega)
    have := hs k hk i hi
    simp only [decide_eq_false_iff_not]
    omega
  rw [specOldLineCount, hfind]
  rfl

theorem addFileMarks_getD (profile : List Block) (numLines : Nat)
    (hwf : WellFormedBlocks profile) (hs : SortedBlocks profile)
    (i : Nat) (hi : i < numLines) :
    (addFileMarks profile numLines).getD i .uncovered =
      lineMarkOfCount ((addFileCounts profile numLines).getD i none) := by
  have hlen : i < (addFileCounts profile numLines).length := by
    rw [addFileCounts,
      addFileCountsFrom_spec profile hwf hs numLines 0 1 (walkInv_init profile hwf)]
    simpa using hi
  rw [addFileMarks, List.getD_eq_getElem _ _ (by simpa using hlen), List.getElem_map,
    List.getD_eq_getElem _ _ hlen]

/-- C1: for every source text split into 1-indexed lines and every sorted,
non-overlapping, well-formed list of blocks, the single-pass merge walk in
`TemplateData.AddFile` marks line `i + 1` as not instrumented when no
block's range contains it, as uncovered when the containing block has count
zero, and as covered with the block's count when that count is positive. -/
theorem addFile_line_marks (profile : List Block) (numLines : Nat)
    (hwf : WellFormedBlocks profile) (hs : SortedBlocks profile)
    (i : Nat) (hi : i < numLines) :
    ((∀ b ∈ profile, b.containsLine ((i : Int) + 1) = false) →
      (addFileMarks profile numLines).getD i .uncovered = .notInstrumented) ∧
    (∀ b ∈ profile, b.containsLine ((i : Int) + 1) = true → b.Count = 0 →
      (addFileMarks profile numLines).getD i .uncovered = .uncovered) ∧
    (∀ b ∈ profile, b.containsLine ((i : Int) + 1) = true → 0 < b.Count →
      (addFileMarks profile numLines).getD i .uncovered = .covered b.Count) := by
  have hbase := addFileMarks_getD profile numLines hwf hs i hi
  rw [addFileCounts_getD profile numLines hwf hs i hi] at hbase
  refine ⟨fun hnone => ?_, fun b hb hc h0 => ?_, fun b hb hc h0 => ?_⟩
  · have hfind : profile.find? (fun b => b.containsLine ((i : Int) + 1)) = none :=
      List.find?_eq_none.mpr (fun x hx => by simp [hnone x hx])
    rw [hbase, specLineCount, hfind]
    rfl
  · rw [hbase, specLineCount_of_contains profile hs b hb _ hc]
    simp [lineMarkOfCount, h0]
  · rw [hbase, specLineCount_of_contains profile hs b hb _ hc]
    simp only [lineMarkOfCount]
    rw [if_neg (by omega)]

/-- Witness for C1 at the spec's worked example: lines 1–5 with blocks
covering 2–3 with count 0 and 4–4 with count 7; line 4 is marked covered
with count 7 by the theorem, and the full mark list matches the spec. -/
theorem addFile_line_marks_witness :
    WellFormedBlocks [⟨2, 3, 0⟩, ⟨4, 4, 7⟩] ∧ SortedBlocks [⟨2, 3, 0⟩, ⟨4, 4, 7⟩] ∧
      (addFileMarks [⟨2, 3, 0⟩, ⟨4, 4, 7⟩] 5).getD 3 .uncovered = .covered 7 :=
  ⟨by decide, by decide,
    (addFile_line_marks [⟨2, 3, 0⟩, ⟨4, 4, 7⟩] 5 (by decide) (by decide) 3
        (by decide)).2.2 ⟨4, 4, 7⟩ (by decide) (by decide) (by decide)⟩

/-- C8 counterexample: on a one-line file whose single block spans lines
2–3, the legacy loop selects the block's count for line 1 while the new
loop selects no count, so the two annotators differ. -/
theorem goFile_addFile_counts_differ :
    goFileCounts [⟨2, 3, 0⟩] 1 ≠ addFileCounts [⟨2, 3, 0⟩] 1 := by
  decide

/-- C8 amended: for sorted, non-overlapping, well-formed blocks, the legacy
`GoFile.write` loop and the `TemplateData.AddFile` loop select the same
count on every line that is contained in some block's range or lies past
every block's end line; they may differ only on uninstrumented lines that
precede a block. -/
theorem goFile_addFile_counts_agree (profile : List Block) (numLines : Nat)
    (hwf : WellFormedBlocks profile) (hs : SortedBlocks profile)
    (i : Nat) (hi : i < numLines)
    (hcond : (∃ b ∈ profile, b.containsLine ((i : Int) + 1) = true) ∨
      (∀ b ∈ profile, b.EndLine < (i : Int) + 1)) :
    (goFileCounts profile numLines).getD i none =
      (addFileCounts profile numLines).getD i none := by
  rw [addFileCounts_getD profile numLines hwf hs i hi,
    goFileCounts_getD profile numLines hwf hs i hi]
  rcases hcond with ⟨b, hb, hc⟩ | hall
  · rw [specLineCount_of_contains profile hs b hb _ hc,
      specOldLineCount_of_contains profile hs b hb _ hc]
  · have h1 : profile.find? (fun b => b.containsLine ((i : Int) + 1)) = none :=
      List.find?_eq_none.mpr (fun x hx => by
        have := hall x hx
        rw [containsLine_iff]
        omega)
    have h2 : profile.find? (fun b => decide (((i : Int) + 1) ≤ b.EndLine)) = none :=
      List.find?_eq_none.mpr (fun x hx => by
        have := hall x hx
        simp only [decide_eq_true_eq]
        omega)
    rw [specLineCount, specOldLineCount, h1, h2]

/-- Witness for C8's amended statement: both loops select count 7 for line 4
of the example profile, and both select no count for line 5, which lies past
every block. -/
theorem goFile_addFile_counts_agree_witness :
    (goFileCounts [⟨2, 3, 0⟩, ⟨4, 4, 7⟩] 5).getD 3 none =
        (addFileCounts [⟨2, 3, 0⟩, ⟨4, 4, 7⟩] 5).getD 3 none ∧
      (goFileCounts [⟨2, 3, 0⟩, ⟨4, 4, 7⟩] 5).getD 4 none =
        (addFileCounts [⟨2, 3, 0⟩, ⟨4, 4, 7⟩] 5).getD 4 none :=
  ⟨goFile_addFile_counts_agree [⟨2, 3, 0⟩, ⟨4, 4, 7⟩] 5 (by decide) (by decide) 3
      (by decide) (Or.inl ⟨⟨4, 4, 7⟩, by decide, by decide⟩),
    goFile_addFile_counts_agree [⟨2, 3, 0⟩, ⟨4, 4, 7⟩] 5 (by decide) (by decide) 4
      (by decide) (Or.inr (by decide))⟩

/-! ### HTML escaping -/

theorem replaceAll_append (pat : Char) (rep : List Char) (a b : List Char) :
    replaceAll pat rep (a ++ b) = replaceAll pat rep a ++ replaceAll pat rep b := by
  induction a with
  | nil => rfl
  | cons c rest ih => simp [replaceAll, ih]

/-- C9 counterexample: the legacy escaping chain replaces `&` after `>`, so
on the single character `>` it produces `&amp;gt;` while
`WriteHTMLEscapedCode` produces `&gt;`. -/
theorem goFile_escape_differs : goFileEscapeLine ['>'] ≠ WriteHTMLEscapedCode ['>'] := by
  decide

theorem goFileEscapeLine_cons (c : Char) (rest : List Char) :
    goFileEscapeLine (c :: rest) = goFileEscapeLine [c] ++ goFileEscapeLine rest := by
  simp [goFileEscapeLine, replaceAll, replaceAll_append]

/-- C9 amended: the chained `ReplaceAll` calls of the legacy `GoFile.write`
agree with the byte-wise `WriteHTMLEscapedCode` on every line that contains
neither `<` nor `>`; on a line containing `<` or `>` the chain double
escapes the ampersand of the inserted entity. -/
theorem goFile_escape_agree (line : List Char)
    (h1 : '<' ∉ line) (h2 : '>' ∉ line) :
    goFileEscapeLine line = WriteHTMLEscapedCode line := by
  induction line with
  | nil => rfl
  | cons c rest ih =>
    simp only [List.mem_cons, not_or] at h1 h2
    obtain ⟨hne1, hr1⟩ := h1
    obtain ⟨hne2, hr2⟩ := h2
    rw [goFileEscapeLine_cons, ih hr1 hr2, WriteHTMLEscapedCode]
    congr 1
    by_cases hamp : c = '&'
    · subst hamp
      decide
    · by_cases htab : c = '\t'
      · subst htab
        decide
      · have hcl : c ≠ '<' := fun h => hne1 h.symm
        have hcg : c ≠ '>' := fun h => hne2 h.symm
        simp [goFileEscapeLine, replaceAll, hcl, hcg, hamp, htab]

/-- Witness for C9's amended statement on a line with an ampersand and a
tab but no angle brackets. -/
theorem goFile_escape_agree_witness :
    goFileEscapeLine ['a', '&', '\t', 'b'] = WriteHTMLEscapedCode ['a', '&', '\t', 'b'] ∧
      '<' ∉ ['a', '&', '\t', 'b'] ∧ '>' ∉ ['a', '&', '\t', 'b'] :=
  ⟨goFile_escape_agree ['a', '&', '\t', 'b'] (by decide) (by decide),
    by decide, by decide⟩

/-! ### Percentages and the classifier -/

/-- C3: the displayed percentage of both legacy HTML helpers (and the
modelled `Percent` method) equals `statementCount == 0 ? 0 :
100 * statementsCovered / statementCount`, and under
`0 ≤ statementsCovered ≤ statementCount` it lies in `[0, 100]`. -/
theorem percent_formula_and_bounds (numStmtCovered numStmt : Int) :
    (openHeadingPercent numStmtCovered numStmt =
      (if numStmt = 0 then 0 else 100 * (numStmtCovered : ℚ) / (numStmt : ℚ))) ∧
    (fileItemPercent numStmtCovered numStmt = openHeadingPercent numStmtCovered numStmt) ∧
    (goPercent numStmtCovered numStmt = openHeadingPercent numStmtCovered numStmt) ∧
    (0 ≤ numStmtCovered → numStmtCovered ≤ numStmt →
      0 ≤ openHeadingPercent numStmtCovered numStmt ∧
        openHeadingPercent numStmtCovered numStmt ≤ 100) := by
  refine ⟨?_, rfl, ?_, fun hc hcn => ?_⟩
  · unfold openHeadingPercent
    split_ifs with h
    · rfl
    · ring
  · unfold goPercent openHeadingPercent
    split_ifs with h
    · rfl
    · ring
  · unfold openHeadingPercent
    split_ifs with h
    · norm_num
    · have hn : (0 : ℚ) < (numStmt : ℚ) := by
        have : 0 < numStmt := by omega
        exact_mod_cast this
      have hc' : (0 : ℚ) ≤ (numStmtCovered : ℚ) := by exact_mod_cast hc
      have hcn' : (numStmtCovered : ℚ) ≤ (numStmt : ℚ) := by exact_mod_cast hcn
      constructor
      · positivity
      · rw [div_mul_eq_mul_div, div_le_iff₀ hn]
        nlinarith

/-- Witness for C3 at one covered statement out of two: the percentage lies
in `[0, 100]`. -/
theorem percent_formula_and_bounds_witness :
    (0 : Int) ≤ 1 ∧ (1 : Int) ≤ 2 ∧ 0 ≤ openHeadingPercent 1 2 ∧
      openHeadingPercent 1 2 ≤ 100 :=
  ⟨by norm_num, by norm_num,
    ((percent_formula_and_bounds 1 2).2.2.2 (by norm_num) (by norm_num)).1,
    ((percent_formula_and_bounds 1 2).2.2.2 (by norm_num) (by norm_num)).2⟩

/-- C2 counterexample: with cutlines safe 40 and warning 70 (the unenforced
ordering), an item with one of two statements covered has percentage 50,
which is at least the safe cutline, yet the classifier assigns danger, not
safe. -/
theorem newItem_class_not_safe :
    (GoListItem.Percent { ID := [], Title := [], StmtCount := 2, StmtCoveredCount := 1 } ≥
        (40 : ℚ)) ∧
      (0 : Int) < 2 ∧
      (NewTemplateListItemData { ID := [], Title := [], StmtCount := 2, StmtCoveredCount := 1 }
          { Safe := 40, Warning := 70 }).ClassName ≠ "safe" := by
  refine ⟨?_, by norm_num, ?_⟩
  · norm_num [GoListItem.Percent, goPercent]
  · have hdanger : (NewTemplateListItemData
        { ID := [], Title := [], StmtCount := 2, StmtCoveredCount := 1 }
        { Safe := 40, Warning := 70 }).ClassName = "danger" := by
      simp only [NewTemplateListItemData]
      rw [if_pos (by norm_num), if_pos (by norm_num [GoListItem.Percent, goPercent])]
    rw [hdanger]
    decide

/-- C2 amended: provided the configuration satisfies `warningThreshold ≤
safeThreshold`, the classifier assigns danger when the percentage is below
the warning cutline, warning when it is between the cutlines, safe when it
is at least the safe cutline, and no class to an item without statements. -/
theorem newItem_class_policy (item : GoListItem) (cutlines : Cutlines)
    (hcut : cutlines.Warning ≤ cutlines.Safe) :
    (item.StmtCount = 0 → (NewTemplateListItemData item cutlines).ClassName = "") ∧
    (0 < item.StmtCount →
      (item.Percent < cutlines.Warning →
        (NewTemplateListItemData item cutlines).ClassName = "danger") ∧
      (cutlines.Warning ≤ item.Percent → item.Percent < cutlines.Safe →
        (NewTemplateListItemData item cutlines).ClassName = "warning") ∧
      (cutlines.Safe ≤ item.Percent →
        (NewTemplateListItemData item cutlines).ClassName = "safe")) := by
  simp only [NewTemplateListItemData]
  refine ⟨fun h0 => ?_, fun hpos => ⟨fun h => ?_, fun ha hb => ?_, fun h => ?_⟩⟩
  · rw [if_neg (by omega : ¬ item.StmtCount > 0)]
  · rw [if_pos (by omega : item.StmtCount > 0), if_pos h]
  · rw [if_pos (by omega : item.StmtCount > 0), if_neg (not_lt.mpr ha), if_pos hb]
  · rw [if_pos (by omega : item.StmtCount > 0), if_neg (not_lt.mpr (hcut.trans h)),
      if_neg (not_lt.mpr h)]

/-- Witness for C2's amended statement with the default cutlines: a fully
covered item is classified safe. -/
theorem newItem_class_policy_witness :
    ((40 : ℚ) ≤ 70) ∧
      (NewTemplateListItemData { ID := [], Title := [], StmtCount := 1, StmtCoveredCount := 1 }
          { Safe := 70, Warning := 40 }).ClassName = "safe" :=
  ⟨by norm_num,
    ((newItem_class_policy { ID := [], Title := [], StmtCount := 1, StmtCoveredCount := 1 }
          { Safe := 70, Warning := 40 } (by norm_num)).2 (by norm_num)).2.2
      (by norm_num [GoListItem.Percent, goPercent])⟩

/-- C6: for any fixed cutlines, including pairs with the warning cutline
above the safe cutline, the classification rank (danger below warning below
safe) never decreases as the percentage increases. -/
theorem newItem_class_monotone (cutlines : Cutlines) (i1 i2 : GoListItem)
    (h1 : 0 < i1.StmtCount) (h2 : 0 < i2.StmtCount)
    (hp : i1.Percent ≤ i2.Percent) :
    classRank (NewTemplateListItemData i1 cutlines).ClassName ≤
      classRank (NewTemplateListItemData i2 cutlines).ClassName := by
  simp only [NewTemplateListItemData]
  rw [if_pos (by omega : i1.StmtCount > 0), if_pos (by omega : i2.StmtCount > 0)]
  split_ifs <;> simp [classRank] <;> linarith

/-- Witness for C6: with the default cutlines, an uncovered item ranks no
higher than a fully covered one. -/
theorem newItem_class_monotone_witness :
    (0 : Int) < 1 ∧
      classRank (NewTemplateListItemData { ID := [], Title := [], StmtCount := 1, StmtCoveredCount := 0 }
          { Safe := 70, Warning := 40 }).ClassName ≤
        classRank (NewTemplateListItemData { ID := [], Title := [], StmtCount := 1, StmtCoveredCount := 1 }
          { Safe := 70, Warning := 40 }).ClassName :=
  ⟨by norm_num,
    newItem_class_monotone { Safe := 70, Warning := 40 } _ _ (by norm_num) (by norm_num)
      (by norm_num [GoListItem.Percent, goPercent])⟩

/-! ### ParseCutlines -/

/-- C10: `ParseCutlines` splits its input on commas, fails exactly when the
first or the last fragment fails to parse, returns the first fragment's
value as `Safe` and the last fragment's as `Warning`, and an input with no
comma is a single fragment (so `Safe` and `Warning` coincide); middle
fragments are never consulted. -/
theorem ParseCutlines_spec {α : Type} (parseFloat : List Char → Option α)
    (s : List Char) :
    (ParseCutlines parseFloat s = none ↔
      parseFloat ((splitOnChar ',' s).headD []) = none ∨
        parseFloat ((splitOnChar ',' s).getLastD []) = none) ∧
    (∀ c : ParsedCutlines α, ParseCutlines parseFloat s = some c →
      parseFloat ((splitOnChar ',' s).headD []) = some c.Safe ∧
        parseFloat ((splitOnChar ',' s).getLastD []) = some c.Warning) ∧
    (',' ∉ s → splitOnChar ',' s = [s]) := by
  have heq : ParseCutlines parseFloat s =
      match parseFloat ((splitOnChar ',' s).headD []) with
      | none => none
      | some safe =>
        match parseFloat ((splitOnChar ',' s).getLastD []) with
        | none => none
        | some warning => some { Safe := safe, Warning := warning } := rfl
  refine ⟨?_, ?_, fun hmem => ?_⟩
  · rw [heq]
    cases hh : parseFloat ((splitOnChar ',' s).headD []) with
    | none => simp
    | some a =>
      cases hl : parseFloat ((splitOnChar ',' s).getLastD []) with
      | none => simp
      | some b => simp
  · intro c
    rw [heq]
    cases hh : parseFloat ((splitOnChar ',' s).headD []) with
    | none => intro hc; exact absurd hc (by simp)
    | some a =>
      cases hl : parseFloat ((splitOnChar ',' s).getLastD []) with
      | none => intro hc; exact absurd hc (by simp)
      | some b =>
        intro hc
        simp only [Option.some_inj] at hc
        subst hc
        exact ⟨rfl, rfl⟩
  · clear heq
    induction s with
    | nil => rfl
    | cons c rest ih =>
      simp only [List.mem_cons, not_or] at hmem
      obtain ⟨hne, hrest⟩ := hmem
      simp only [splitOnChar, ih hrest]
      rw [if_neg (fun h => hne h.symm)]

/-- Witness for C10 on the input `3,5,7` with a parser that rejects the
middle fragment `5`: parsing still succeeds, with safe 3 and warning 7. -/
theorem ParseCutlines_spec_witness :
    ParseCutlines parseDigit ['3', ',', '5', ',', '7'] = some { Safe := 3, Warning := 7 } ∧
      parseDigit ((splitOnChar ',' ['3', ',', '5', ',', '7']).headD []) = some 3 ∧
      parseDigit ((splitOnChar ',' ['3', ',', '5', ',', '7']).getLastD []) = some 7 :=
  ⟨by decide,
    ((ParseCutlines_spec parseDigit ['3', ',', '5', ',', '7']).2.1
        { Safe := 3, Warning := 7 } (by decide)).1,
    ((ParseCutlines_spec parseDigit ['3', ',', '5', ',', '7']).2.1
        { Safe := 3, Warning := 7 } (by decide)).2⟩

/-! ### The display-root collapsing walk -/

theorem collapse_descends : ∀ d : GoDir, DescendsTo d (GoDir.collapse d)
  | .mk _ _ _ _ _ _ [] _ => .refl _
  | .mk i t r b sc scc [c] [] =>
    DescendsTo.step i t r b sc scc c _ (collapse_descends c)
  | .mk _ _ _ _ _ _ [_] (_ :: _) => .refl _
  | .mk _ _ _ _ _ _ (_ :: _ :: _) _ => .refl _

theorem collapse_stops : ∀ d : GoDir,
    ¬ ((GoDir.collapse d).SubDirs.length = 1 ∧ (GoDir.collapse d).Files = [])
  | .mk i t r b sc scc [] files => by
    intro h
    simp [GoDir.collapse, GoDir.SubDirs] at h
  | .mk i t r b sc scc [c] [] => collapse_stops c
  | .mk i t r b sc scc [c] (f :: fs) => by
    intro h
    simp [GoDir.collapse, GoDir.Files] at h
  | .mk i t r b sc scc (c1 :: c2 :: cs) files => by
    intro h
    simp [GoDir.collapse, GoDir.SubDirs] at h

/-- C4 counterexample: on the claim's own example tree — a root with a
single subdirectory `pkg`, no files at the root, and two files inside
`pkg` — the code's display root is `pkg`, but the claimed walk (whose
condition requires the *child* to have no files) stops at the root, so the
claimed rule does not compute the display root. -/
theorem collapse_not_specCollapse :
    (GoProject.reportInitialDir
        ⟨['.'], ⟨70, 40⟩,
          .mk ['r', 'o', 'o', 't'] [] [] [] 0 0
            [.mk ['p', 'k', 'g'] [] [] [] 0 0 []
              [⟨['f', '1'], [], [], 0, 0, [], []⟩, ⟨['f', '2'], [], [], 0, 0, [], []⟩]]
            []⟩).ID = ['p', 'k', 'g'] ∧
      (specCollapse
        (.mk ['r', 'o', 'o', 't'] [] [] [] 0 0
          [.mk ['p', 'k', 'g'] [] [] [] 0 0 []
            [⟨['f', '1'], [], [], 0, 0, [], []⟩, ⟨['f', '2'], [], [], 0, 0, [], []⟩]]
          [])).ID = ['r', 'o', 'o', 't'] := by
  constructor <;> decide

/-- C4 amended: when the configured root path is `"."`, the display root is
obtained from the root by descending while the current directory has
exactly one subdirectory and no files of its own, stopping at the first
node whose subdirectory count differs from one or that has a file; in
particular, on the example tree (root with single subdirectory `pkg`
holding two files) the display root is `pkg`. -/
theorem reportInitialDir_rule :
    (∀ d : GoDir, DescendsTo d (GoDir.collapse d)) ∧
    (∀ d : GoDir,
      ¬ ((GoDir.collapse d).SubDirs.length = 1 ∧ (GoDir.collapse d).Files = [])) ∧
    (∀ gp : GoProject, gp.reportInitialDir =
      if gp.RootPath = ['.'] then gp.RootDir.collapse else gp.RootDir) ∧
    (GoProject.reportInitialDir
      ⟨['.'], ⟨70, 40⟩,
        .mk ['r', 'o', 'o', 't'] [] [] [] 0 0
          [.mk ['p', 'k', 'g'] [] [] [] 0 0 []
            [⟨['f', '1'], [], [], 0, 0, [], []⟩, ⟨['f', '2'], [], [], 0, 0, [], []⟩]]
          []⟩).ID = ['p', 'k', 'g'] :=
  ⟨collapse_descends, collapse_stops, fun _ => rfl, by decide⟩

/-! ### The view projector -/

theorem AddFileList_views :
    ∀ (td : TemplateData) (files : List GoFile) (links : List TemplateLinkData),
      TemplateData.AddFileList td files links =
        { td with Views := td.Views ++ files.map (addFileView links) }
  | td, [], links => by simp [TemplateData.AddFileList]
  | td, f :: fs, links => by
    rw [TemplateData.AddFileList, AddFileList_views]
    simp [TemplateData.AddFile]

mutual

theorem AddDir_views :
    ∀ (td : TemplateData) (dir : GoDir) (links : List TemplateLinkData),
      TemplateData.AddDir td dir links =
        { td with Views := td.Views ++ dirViews td.InitialID td.Cutlines links dir }
  | td, .mk i t r b sc scc subDirs files, links => by
    simp only [TemplateData.AddDir]
    rw [AddDirList_views, AddFileList_views]
    simp only [dirViews]
    simp [List.append_assoc]

theorem AddDirList_views :
    ∀ (td : TemplateData) (dirs : List GoDir) (links : List TemplateLinkData),
      TemplateData.AddDirList td dirs links =
        { td with Views := td.Views ++ dirViewsList td.InitialID td.Cutlines links dirs }
  | td, [], links => by simp [TemplateData.AddDirList, dirViewsList]
  | td, d :: ds, links => by
    rw [TemplateData.AddDirList, AddDir_views, AddDirList_views]
    simp only [dirViewsList]
    simp [List.append_assoc]

end

mutual

theorem dirViews_map_id :
    ∀ (iid : List Char) (cut : Cutlines) (links : List TemplateLinkData) (d : GoDir),
      (dirViews iid cut links d).map TemplateViewData.ID = d.nodeIds
  | iid, cut, links, .mk i t r b sc scc subDirs files => by
    rw [dirViews, GoDir.nodeIds]
    simp only [List.map_cons, List.map_append, List.map_map, Function.comp]
    rw [dirViewsList_map_id]
    rfl

theorem dirViewsList_map_id :
    ∀ (iid : List Char) (cut : Cutlines) (links : List TemplateLinkData) (l : List GoDir),
      (dirViewsList iid cut links l).map TemplateViewData.ID = GoDir.nodeIdsList l
  | _, _, _, [] => rfl
  | iid, cut, links, d :: ds => by
    rw [dirViewsList, GoDir.nodeIdsList]
    simp only [List.map_append]
    rw [dirViews_map_id, dirViewsList_map_id]

end

mutual

theorem nodeIds_length : ∀ d : GoDir, d.nodeIds.length = d.countNodes
  | .mk i t r b sc scc subDirs files => by
    rw [GoDir.nodeIds, GoDir.countNodes]
    simp only [List.length_cons, List.length_append, List.length_map,
      nodeIdsList_length subDirs]
    omega

theorem nodeIdsList_length :
    ∀ l : List GoDir, (GoDir.nodeIdsList l).length = GoDir.countNodesList l
  | [] => rfl
  | d :: ds => by
    rw [GoDir.nodeIdsList, GoDir.countNodesList]
    simp only [List.length_append, nodeIds_length d, nodeIdsList_length ds]

end

/-- C5: the projector emits one view per node reachable from the display
root, in pre-order, with none omitted and none duplicated: `AddDir` appends
exactly the `dirViews` of the directory (directory view first, then the
subdirectory subtrees in order, then the files), the emitted view
identifiers are exactly the pre-order node enumeration `nodeIds`, and their
number equals the number of reachable nodes. -/
theorem report_views_preorder :
    (∀ (td : TemplateData) (dir : GoDir) (links : List TemplateLinkData),
      (TemplateData.AddDir td dir links).Views =
        td.Views ++ dirViews td.InitialID td.Cutlines links dir) ∧
    (∀ (iid : List Char) (cut : Cutlines) (links : List TemplateLinkData) (d : GoDir),
      (dirViews iid cut links d).map TemplateViewData.ID = d.nodeIds) ∧
    (∀ d : GoDir, d.nodeIds.length = d.countNodes) ∧
    (∀ gp : GoProject,
      (gp.Report).Views.map TemplateViewData.ID = gp.reportInitialDir.nodeIds ∧
      (gp.Report).Views.length = gp.reportInitialDir.countNodes) := by
  have h1 : ∀ (td : TemplateData) (dir : GoDir) (links : List TemplateLinkData),
      (TemplateData.AddDir td dir links).Views =
        td.Views ++ dirViews td.InitialID td.Cutlines links dir :=
    fun td dir links => by rw [AddDir_views]
  refine ⟨h1, dirViews_map_id, nodeIds_length, fun gp => ?_⟩
  have hrep : (gp.Report).Views =
      dirViews gp.reportInitialDir.ID gp.Cutlines [] gp.reportInitialDir := by
    show (TemplateData.AddDir
      { Views := [], InitialID := gp.reportInitialDir.ID, Cutlines := gp.Cutlines }
      gp.reportInitialDir []).Views = _
    rw [h1]
    rfl
  refine ⟨by rw [hrep, dirViews_map_id], ?_⟩
  rw [hrep, ← nodeIds_length,
    ← dirViews_map_id gp.reportInitialDir.ID gp.Cutlines [] gp.reportInitialDir,
    List.length_map]

/-! ### The legacy identifier scheme -/

theorem hyphen_seg_inj :
    ∀ (b1 b2 t1 t2 : List Char), '-' ∉ b1 → '-' ∉ b2 →
      HyphenStart t1 → HyphenStart t2 → b1 ++ t1 = b2 ++ t2 → b1 = b2 ∧ t1 = t2 := by
  intro b1
  induction b1 with
  | nil =>
    intro b2 t1 t2 h1 h2 hs1 hs2 heq
    simp only [List.nil_append] at heq
    rcases hs1 with rfl | ⟨u, rfl⟩
    · obtain ⟨rfl, rfl⟩ := List.append_eq_nil.mp heq.symm
      exact ⟨rfl, rfl⟩
    · cases b2 with
      | nil =>
        simp only [List.nil_append] at heq
        exact ⟨rfl, heq⟩
      | cons c2 b2' =>
        simp only [List.cons_append, List.cons.injEq] at heq
        rw [← heq.1] at h2
        exact absurd (List.mem_cons_self _ _) h2
  | cons c b1' ih =>
    intro b2 t1 t2 h1 h2 hs1 hs2 heq
    cases b2 with
    | nil =>
      simp only [List.nil_append] at heq
      rcases hs2 with rfl | ⟨u, rfl⟩
      · simp at heq
      · simp only [List.cons_append, List.cons.injEq] at heq
        rw [heq.1] at h1
        exact absurd (List.mem_cons_self _ _) h1
    | cons c2 b2' =>
      simp only [List.cons_append, List.cons.injEq] at heq
      obtain ⟨rfl, heq2⟩ := heq
      have h1' : '-' ∉ b1' := fun hm => h1 (List.mem_cons_of_mem _ hm)
      have h2' : '-' ∉ b2' := fun hm => h2 (List.mem_cons_of_mem _ hm)
      obtain ⟨hb, ht⟩ := ih b2' t1 t2 h1' h2' hs1 hs2 heq2
      exact ⟨by rw [hb], ht⟩

theorem idTailsList_mem_char :
    ∀ (l : List GoDir) (x : List Char), x ∈ GoDir.idTailsList l →
      ∃ d ∈ l, ∃ t ∈ d.idTails, x = ('-' :: d.Basename) ++ t
  | [], x, hx => absurd hx (by simp [GoDir.idTailsList])
  | d :: ds, x, hx => by
    rw [GoDir.idTailsList] at hx
    rcases List.mem_append.mp hx with hm | hm
    · obtain ⟨t, ht, rfl⟩ := List.mem_map.mp hm
      exact ⟨d, List.mem_cons_self _ _, t, ht, rfl⟩
    · obtain ⟨d', hd', t, ht, heq⟩ := idTailsList_mem_char ds x hm
      exact ⟨d', List.mem_cons_of_mem _ hd', t, ht, heq⟩

theorem idTails_hyphenStart :
    ∀ (d : GoDir) (t : List Char), t ∈ d.idTails → HyphenStart t
  | .mk i tt r b sc scc subDirs files, t, ht => by
    rw [GoDir.idTails] at ht
    rcases List.mem_cons.mp ht with rfl | hm
    · exact Or.inl rfl
    · rcases List.mem_append.mp hm with hm | hm
      · obtain ⟨d', _, t', _, rfl⟩ := idTailsList_mem_char subDirs t hm
        exact Or.inr ⟨d'.Basename ++ t', rfl⟩
      · obtain ⟨f, _, rfl⟩ := List.mem_map.mp hm
        exact Or.inr ⟨f.Basename, rfl⟩

theorem goodNamesList_mem :
    ∀ (l : List GoDir), GoDir.goodNamesList l = true → ∀ d ∈ l, d.goodNames = true
  | [], _, d, hd => absurd hd (by simp)
  | d :: ds, h, d', hd' => by
    rw [GoDir.goodNamesList, Bool.and_eq_true] at h
    rcases List.mem_cons.mp hd' with rfl | hm
    · exact h.1
    · exact goodNamesList_mem ds h.2 d' hm

mutual

theorem idTails_nodup : ∀ (d : GoDir), d.goodNames = true → d.idTails.Nodup
  | .mk i t r b sc scc subDirs files, h => by
    rw [GoDir.goodNames, Bool.and_eq_true, Bool.and_eq_true,
      decide_eq_true_eq, decide_eq_true_eq] at h
    obtain ⟨⟨hnodup, hgood⟩, hlist⟩ := h
    rw [GoDir.idTails, List.nodup_cons]
    constructor
    · intro hmem
      rcases List.mem_append.mp hmem with hm | hm
      · obtain ⟨d', _, t', _, heq⟩ := idTailsList_mem_char subDirs [] hm
        exact absurd heq (by simp)
      · obtain ⟨f, _, heq⟩ := List.mem_map.mp hm
        exact absurd heq (by simp)
    · exact idTails_blocks_nodup subDirs files hnodup hgood hlist

theorem idTails_blocks_nodup :
    ∀ (l : List GoDir) (fs : List GoFile),
      (l.map GoDir.Basename ++ fs.map GoFile.Basename).Nodup →
      (∀ b ∈ l.map GoDir.Basename ++ fs.map GoFile.Basename, b ≠ [] ∧ '-' ∉ b) →
      GoDir.goodNamesList l = true →
      (GoDir.idTailsList l ++ fs.map (fun f => '-' :: f.Basename)).Nodup
  | [], fs, hnodup, hgood, _ => by
    rw [GoDir.idTailsList]
    simp only [List.nil_append, List.map_nil] at hnodup ⊢
    have hmm : fs.map (fun f => '-' :: f.Basename) =
        (fs.map GoFile.Basename).map (fun bn => '-' :: bn) := by
      rw [List.map_map]
      rfl
    rw [hmm]
    exact List.Nodup.map (fun x y hxy => by injection hxy) hnodup
  | d :: ds, fs, hnodup, hgood, hlist => by
    simp only [List.map_cons, List.cons_append] at hnodup hgood
    rw [List.nodup_cons] at hnodup
    obtain ⟨hnotmem, hnodup'⟩ := hnodup
    obtain ⟨hBne, hBnoh⟩ := hgood d.Basename (List.mem_cons_self _ _)
    rw [GoDir.goodNamesList, Bool.and_eq_true] at hlist
    rw [GoDir.idTailsList, List.append_assoc, List.nodup_append]
    refine ⟨?_, ?_, ?_⟩
    · exact List.Nodup.map (fun x y hxy => List.append_cancel_left hxy)
        (idTails_nodup d hlist.1)
    · exact idTails_blocks_nodup ds fs hnodup'
        (fun bn hb => hgood bn (List.mem_cons_of_mem _ hb)) hlist.2
    · intro x hx1 hx2
      obtain ⟨t1, ht1, rfl⟩ := List.mem_map.mp hx1
      rcases List.mem_append.mp hx2 with hm | hm
      · obtain ⟨d', hd', t2, ht2, heq⟩ := idTailsList_mem_char ds _ hm
        simp only [List.cons_append, List.cons.injEq, true_and] at heq
        obtain ⟨hB2ne, hB2noh⟩ := hgood d'.Basename
          (List.mem_cons_of_mem _
            (List.mem_append_left _ (List.mem_map_of_mem GoDir.Basename hd')))
        obtain ⟨hb, -⟩ := hyphen_seg_inj d.Basename d'.Basename t1 t2 hBnoh hB2noh
          (idTails_hyphenStart d t1 ht1) (idTails_hyphenStart d' t2 ht2) heq
        exact hnotmem
          (hb ▸ List.mem_append_left _ (List.mem_map_of_mem GoDir.Basename hd'))
      · obtain ⟨f, hf, heq⟩ := List.mem_map.mp hm
        simp only [List.cons_append, List.cons.injEq, true_and] at heq
        obtain ⟨hB2ne, hB2noh⟩ := hgood f.Basename
          (List.mem_cons_of_mem _
            (List.mem_append_right _ (List.mem_map_of_mem GoFile.Basename hf)))
        have heq2 : d.Basename ++ t1 = f.Basename ++ [] := by
          rw [List.append_nil]
          exact heq.symm
        obtain ⟨hb, -⟩ := hyphen_seg_inj d.Basename f.Basename t1 [] hBnoh hB2noh
          (idTails_hyphenStart d t1 ht1) (Or.inl rfl) heq2
        exact hnotmem
          (hb ▸ List.mem_append_right _ (List.mem_map_of_mem GoFile.Basename hf))

end

mutual

theorem writeIds_eq : ∀ (d : GoDir) (id : List Char),
    d.writeIds id = (d.idTails).map (fun tl => id ++ tl)
  | .mk i t r b sc scc subDirs files, id => by
    rw [GoDir.writeIds, GoDir.idTails]
    simp only [List.map_cons, List.map_append, List.map_map, Function.comp,
      List.append_nil]
    rw [writeIdsList_eq]
    rfl

theorem writeIdsList_eq : ∀ (l : List GoDir) (id : List Char),
    GoDir.writeIdsList l id = (GoDir.idTailsList l).map (fun tl => id ++ tl)
  | [], _ => rfl
  | d :: ds, id => by
    rw [GoDir.writeIdsList, GoDir.idTailsList]
    simp only [List.map_append, List.map_map, Function.comp]
    rw [writeIds_eq, writeIdsList_eq]
    congr 1
    apply List.map_congr_left
    intro tl _
    rw [List.append_assoc]
    rfl

end

/-- C7 counterexample: base names may contain hyphens, and then the
identifier scheme of the legacy `GoDir.write` collides: a subdirectory
named `a-b` and a subdirectory chain `a`/`b` under the same root both
produce the identifier `root-a-b`. -/
theorem writeIds_collide :
    ¬ (GoDir.writeIds
        (.mk [] [] [] ['r'] 0 0
          [.mk [] [] [] ['a', '-', 'b'] 0 0 [] [],
            .mk [] [] [] ['a'] 0 0 [.mk [] [] [] ['b'] 0 0 [] []] []]
          [])
        ['r', 'o', 'o', 't']).Nodup := by
  decide

/-- C7 amended: the identifiers assigned by the legacy `GoDir.write` are a
pure function of the tree, and they are pairwise distinct provided every
directory's subdirectory and file base names are jointly distinct,
nonempty, and free of hyphens. -/
theorem writeIds_nodup (d : GoDir) (id : List Char) (h : d.goodNames = true) :
    (d.writeIds id).Nodup := by
  rw [writeIds_eq]
  exact List.Nodup.map (fun x y hxy => List.append_cancel_left hxy)
    (idTails_nodup d h)

/-- Witness for C7's amended statement on a well-named tree: a root with
subdirectories `a` (holding file `c`) and `b` gets collision-free
identifiers. -/
theorem writeIds_nodup_witness :
    GoDir.goodNames
        (.mk [] [] [] ['r'] 0 0
          [.mk [] [] [] ['a'] 0 0 [] [⟨[], [], ['c'], 0, 0, [], []⟩],
            .mk [] [] [] ['b'] 0 0 [] []]
          []) = true ∧
      (GoDir.writeIds
        (.mk [] [] [] ['r'] 0 0
          [.mk [] [] [] ['a'] 0 0 [] [⟨[], [], ['c'], 0, 0, [], []⟩],
            .mk [] [] [] ['b'] 0 0 [] []]
          [])
        ['r', 'o', 'o', 't']).Nodup :=
  ⟨by decide,
    writeIds_nodup
      (.mk [] [] [] ['r'] 0 0
        [.mk [] [] [] ['a'] 0 0 [] [⟨[], [], ['c'], 0, 0, [], []⟩],
          .mk [] [] [] ['b'] 0 0 [] []]
        [])
      ['r', 'o', 'o', 't'] (by decide)⟩
